import Mathlib

/-!
Verification of the expansion-draft core of `src/app.py`.

Python `dict`s are modelled as association lists kept in insertion order
(Python 3.7+ dicts iterate in insertion order); a lookup returns the value
of the first matching key.  Python lists are Lean lists; `l[:k]` is
`List.take k l`.  A Python `KeyError` is modelled by `Option`: functions
that can raise return `none` on the raising input.  The external
chat-completion response consumed by `ai_protect` is an opaque input,
modelled as `Option (List String)` (`none` for a response on which
`json.loads` raises).
-/

namespace ExpansionDraft

/-- Python `d.get(k, dflt)`: dict lookup with a default value
(used at src/app.py lines 48, 55, 58). -/
def pyGet {K V : Type} [DecidableEq K] (d : List (K × V)) (k : K) (dflt : V) : V :=
  match d.find? (fun kv => decide (kv.1 = k)) with
  | some kv => kv.2
  | none => dflt

/-- Python `d[k]`: dict subscript; `none` models a `KeyError`
(used at src/app.py lines 62-63, 109). -/
def pySub {K V : Type} [DecidableEq K] (d : List (K × V)) (k : K) : Option V :=
  (d.find? (fun kv => decide (kv.1 = k))).map Prod.snd

/-- Python `d.setdefault(k, []).append(v)` on an insertion-ordered dict of
lists: append `v` to the group of `k`, creating the group at the end when
`k` is new (src/app.py line 56). -/
def setdefaultAppend {K V : Type} [DecidableEq K] : List (K × List V) → K → V → List (K × List V)
  | [], k, v => [(k, [v])]
  | (k', vs) :: rest, k, v =>
    if k' = k then (k', vs ++ [v]) :: rest else (k', vs) :: setdefaultAppend rest k v

/-- A Python dict-comprehension assignment `d[k] = v`: overwrite the value
of an existing key in place, else append the new pair (src/app.py line 108,
`{v: k for k, v in id_to_name.items()}`). -/
def pyInsert {K V : Type} [DecidableEq K] : List (K × V) → K → V → List (K × V)
  | [], k, v => [(k, v)]
  | (k', v') :: rest, k, v =>
    if k' = k then (k', v) :: rest else (k', v') :: pyInsert rest k v

/-- The inverted name map `name_to_id = {v: k for k, v in id_to_name.items()}`
of src/app.py lines 108 and 140. -/
def invertDict {α : Type} [DecidableEq α] (id_to_name : List (α × String)) : List (String × α) :=
  id_to_name.foldl (fun acc kv => pyInsert acc kv.2 kv.1) []

/-- Line 48: `protection_overrides.get(owner, roster_ids[:max_protect])[:max_protect]`. -/
def protectedOf {α β : Type} [DecidableEq α] [DecidableEq β]
    (protection_overrides : List (β × List α)) (owner : β)
    (roster_ids : List α) (max_protect : Nat) : List α :=
  (pyGet protection_overrides owner (roster_ids.take max_protect)).take max_protect

/-- Line 49: `[pid for pid in roster_ids if pid not in protected]`. -/
def candidatesOf {α : Type} [DecidableEq α] (roster_ids prot : List α) : List α :=
  roster_ids.filter (fun pid => decide (pid ∉ prot))

/-- Lines 53-56: build `by_pos` by iterating the candidates and appending
each to the group of `id_to_pos.get(pid, "UNK")`. -/
def groupByPos {α : Type} [DecidableEq α] (id_to_pos : List (α × String))
    (candidates : List α) : List (String × List α) :=
  candidates.foldl (fun acc pid => setdefaultAppend acc (pyGet id_to_pos pid "UNK") pid) []

/-- Lines 57-59: for each position group take the first
`pos_caps.get(pos, len(pids))` players, extending `losses` in group order. -/
def cappedLosses {α : Type} (pos_caps : List (String × Nat))
    (by_pos : List (String × List α)) : List α :=
  by_pos.foldl (fun losses g => losses ++ g.2.take (pyGet pos_caps g.1 g.2.length)) []

/-- Lines 52-59 combined: the loss list computed from a candidate list. -/
def ownerLosses {α : Type} [DecidableEq α] (id_to_pos : List (α × String))
    (pos_caps : List (String × Nat)) (candidates : List α) : List α :=
  cappedLosses pos_caps (groupByPos id_to_pos candidates)

/-- Lines 48-59 combined: the loss list one owner contributes to the pool. -/
def ownerLossList {α β : Type} [DecidableEq α] [DecidableEq β]
    (id_to_pos : List (α × String)) (pos_caps : List (String × Nat))
    (protection_overrides : List (β × List α)) (max_protect : Nat)
    (owner : β) (roster_ids : List α) : List α :=
  ownerLosses id_to_pos pos_caps
    (candidatesOf roster_ids (protectedOf protection_overrides owner roster_ids max_protect))

/-- Lines 62-63: `[id_to_name[p] for p in pids]`; `none` when some lookup
raises `KeyError`. -/
def namesOf {α : Type} [DecidableEq α] (id_to_name : List (α × String)) :
    List α → Option (List String)
  | [] => some []
  | p :: ps =>
    match pySub id_to_name p, namesOf id_to_name ps with
    | some n, some ns => some (n :: ns)
    | _, _ => none

/-- One owner's row of the `breakdown` dict (lines 61-64). -/
structure OwnerBreakdown where
  protectedNames : List String
  lossNames : List String
deriving DecidableEq

/-- The owner loop of `simulate_and_draft` (lines 46-65): builds the
breakdown rows and the global pool in roster-map iteration order; `none`
when an `id_to_name[p]` lookup raises. -/
def processOwners {α β : Type} [DecidableEq α] [DecidableEq β]
    (id_to_name id_to_pos : List (α × String)) (max_protect : Nat)
    (pos_caps : List (String × Nat)) (protection_overrides : List (β × List α)) :
    List (β × List α) → Option (List (β × OwnerBreakdown) × List α)
  | [] => some ([], [])
  | (owner, roster_ids) :: rest =>
    let prot := protectedOf protection_overrides owner roster_ids max_protect
    let losses := ownerLosses id_to_pos pos_caps (candidatesOf roster_ids prot)
    match namesOf id_to_name prot, namesOf id_to_name losses,
        processOwners id_to_name id_to_pos max_protect pos_caps protection_overrides rest with
    | some pn, some ln, some (bd, pool) => some ((owner, ⟨pn, ln⟩) :: bd, losses ++ pool)
    | _, _, _ => none

/-- The pool before truncation: concatenation of the owners' loss lists in
roster-map iteration order (lines 43-65). -/
def poolOf {α β : Type} [DecidableEq α] [DecidableEq β] (rosters : List (β × List α))
    (id_to_pos : List (α × String)) (max_protect : Nat) (pos_caps : List (String × Nat))
    (protection_overrides : List (β × List α)) : List α :=
  (rosters.map (fun r =>
    ownerLossList id_to_pos pos_caps protection_overrides max_protect r.1 r.2)).flatten

/-- The draft format radio value (line 156): `"Snake"` or `"Linear"`. -/
inductive DraftFormat
  | Snake
  | Linear
deriving DecidableEq

/-- Line 71: the label of the 0-based `i`-th expansion team,
`f"Expansion Team {i+1}"`. -/
def teamLabel (i : Nat) : String := s!"Expansion Team {i + 1}"

/-- Line 71: `teams = [f"Expansion Team {i+1}" for i in range(num_teams)]`. -/
def teamLabels (num_teams : Nat) : List String :=
  (List.range num_teams).map teamLabel

/-- Lines 74-79: the team label receiving pool index `idx`. -/
def pickTeam (teams : List String) (num_teams : Nat) (fmt : DraftFormat) (idx : Nat) : String :=
  match fmt with
  | DraftFormat.Snake =>
    let rnd := idx / num_teams
    let order := if rnd % 2 = 0 then teams else teams.reverse
    order.getD (idx % num_teams) ""
  | DraftFormat.Linear => teams.getD (idx % num_teams) ""

/-- Line 80: `picks[team].append(pid)` on the dict of per-team pick lists. -/
def appendPick {α : Type} (picks : List (String × List α)) (team : String) (pid : α) :
    List (String × List α) :=
  picks.map (fun e => if e.1 = team then (e.1, e.2 ++ [pid]) else e)

/-- Lines 71-80: the allocation loop over the (already truncated) draft
pool, starting from `picks = {t: [] for t in teams}`. -/
def allocatePicks {α : Type} (draft_pool_ids : List α) (num_teams : Nat)
    (fmt : DraftFormat) : List (String × List α) :=
  draft_pool_ids.enum.foldl
    (fun picks q => appendPick picks (pickTeam (teamLabels num_teams) num_teams fmt q.1) q.2)
    ((teamLabels num_teams).map (fun t => (t, [])))

/-- The 0-based team position that receives pool index `idx`: the position
used by lines 74-79 (`order[idx % num_teams]` with `order` reversed on odd
snake rounds selects the team at this position of `teams`). -/
def targetIdx (fmt : DraftFormat) (num_teams idx : Nat) : Nat :=
  match fmt with
  | DraftFormat.Snake =>
    if (idx / num_teams) % 2 = 0 then idx % num_teams
    else num_teams - 1 - idx % num_teams
  | DraftFormat.Linear => idx % num_teams

/-- `simulate_and_draft` (lines 40-82).  `none` models the run raising
(the `id_to_name[p]` subscripts on lines 62-63 are the only statements
that can raise). -/
def simulate_and_draft {α β : Type} [DecidableEq α] [DecidableEq β]
    (rosters : List (β × List α)) (id_to_name id_to_pos : List (α × String))
    (max_protect : Nat) (pos_caps : List (String × Nat))
    (num_teams picks_per_team : Nat) (draft_format : DraftFormat)
    (protection_overrides : List (β × List α)) :
    Option (List (β × OwnerBreakdown) × List α × List (String × List α)) :=
  match processOwners id_to_name id_to_pos max_protect pos_caps protection_overrides rosters with
  | none => none
  | some (breakdown, pool) =>
    let total_picks := num_teams * picks_per_team
    let draft_pool_ids := pool.take total_picks
    some (breakdown, draft_pool_ids, allocatePicks draft_pool_ids num_teams draft_format)

/-- `ai_protect` (lines 85-109), with the chat response as an input:
`none` models a response on which `json.loads` raises (lines 103-106),
`some names` a parsed JSON array of player names (line 109). -/
def ai_protect {α : Type} [DecidableEq α] (roster_ids : List α)
    (id_to_name : List (α × String)) (max_protect : Nat)
    (response : Option (List String)) : List α :=
  match response with
  | none => roster_ids.take max_protect
  | some names =>
    let name_to_id := invertDict id_to_name
    (names.filterMap (fun n => pySub name_to_id n)).take max_protect

/-- Line 186: `[o for o, p in protection_overrides.items() if len(p) != max_protect]`. -/
def invalidOwners {α β : Type} (protection_overrides : List (β × List α))
    (max_protect : Nat) : List β :=
  (protection_overrides.filter (fun op => decide (op.2.length ≠ max_protect))).map Prod.fst

/-- The manual-mode run (lines 183-210): validate the overrides first and
abort (`Except.error` with the offending owners) when any override length
differs from `max_protect`; otherwise run `simulate_and_draft`.  On abort
nothing besides the owner list is produced. -/
def runManual {α β : Type} [DecidableEq α] [DecidableEq β]
    (rosters : List (β × List α)) (id_to_name id_to_pos : List (α × String))
    (max_protect : Nat) (pos_caps : List (String × Nat))
    (num_teams picks_per_team : Nat) (draft_format : DraftFormat)
    (protection_overrides : List (β × List α)) :
    Except (List β) (Option (List (β × OwnerBreakdown) × List α × List (String × List α))) :=
  match invalidOwners protection_overrides max_protect with
  | [] => Except.ok (simulate_and_draft rosters id_to_name id_to_pos max_protect pos_caps
      num_teams picks_per_team draft_format protection_overrides)
  | _ :: _ => Except.error (invalidOwners protection_overrides max_protect)

/-! ### Dictionary lemmas -/

theorem pyGet_eq_getD_pySub {K V : Type} [DecidableEq K] (d : List (K × V)) (k : K) (dflt : V) :
    pyGet d k dflt = (pySub d k).getD dflt := by
  rw [pyGet, pySub]
  cases d.find? (fun kv => decide (kv.1 = k)) <;> rfl

theorem pySub_some_pyGet {K V : Type} [DecidableEq K] {d : List (K × V)} {k : K} {v : V}
    (h : pySub d k = some v) (dflt : V) : pyGet d k dflt = v := by
  rw [pyGet_eq_getD_pySub, h]; rfl

theorem pySub_none_pyGet {K V : Type} [DecidableEq K] {d : List (K × V)} {k : K}
    (h : pySub d k = none) (dflt : V) : pyGet d k dflt = dflt := by
  rw [pyGet_eq_getD_pySub, h]; rfl

/-! ### Injectivity of Nat.repr and distinctness of the team labels -/

/-- Decimal value of a digit character. -/
def digitVal (c : Char) : Nat := c.toNat - 48

/-- Reads back a most-significant-first decimal digit string. -/
def decDecode (a : Nat) (cs : List Char) : Nat :=
  cs.foldl (fun a c => a * 10 + digitVal c) a

/-- Ten to the number of decimal digits of `n`. -/
def digitWeight (n : Nat) : Nat :=
  if n < 10 then 10 else 10 * digitWeight (n / 10)
decreasing_by exact Nat.div_lt_self (by omega) (by omega)

theorem digitVal_digitChar {d : Nat} (h : d < 10) : digitVal (Nat.digitChar d) = d := by
  interval_cases d <;> rfl

theorem decDecode_toDigitsCore (fuel : Nat) :
    ∀ n acc a, n < fuel →
      decDecode a (Nat.toDigitsCore 10 fuel n acc) = decDecode (a * digitWeight n + n) acc := by
  induction fuel with
  | zero => intro n acc a h; omega
  | succ f ih =>
    intro n acc a h
    by_cases h10 : n < 10
    · rw [Nat.toDigitsCore]
      simp only [if_pos (by omega : n / 10 = 0)]
      show decDecode (a * 10 + digitVal (Nat.digitChar (n % 10))) acc = _
      rw [Nat.mod_eq_of_lt h10, digitVal_digitChar h10, digitWeight]
      simp [h10]
    · rw [Nat.toDigitsCore]
      simp only [if_neg (by omega : ¬ n / 10 = 0)]
      rw [ih (n / 10) _ a (by omega)]
      show decDecode ((a * digitWeight (n / 10) + n / 10) * 10 + digitVal (Nat.digitChar (n % 10))) acc = _
      rw [digitVal_digitChar (by omega : n % 10 < 10)]
      have hw : digitWeight n = 10 * digitWeight (n / 10) := by
        rw [digitWeight]; simp [h10]
      have : (a * digitWeight (n / 10) + n / 10) * 10 + n % 10 = a * digitWeight n + n := by
        rw [hw]
        have := Nat.div_add_mod n 10
        ring_nf
        omega
      rw [this]

theorem decDecode_toDigits (n : Nat) : decDecode 0 (Nat.toDigits 10 n) = n := by
  have h := decDecode_toDigitsCore (n + 1) n [] 0 (by omega)
  rw [Nat.toDigits] at *
  rw [h]
  simp [decDecode]

theorem string_data_inj {s t : String} (h : s.data = t.data) : s = t := by
  cases s; cases t; exact congrArg String.mk h

theorem repr_injective : Function.Injective Nat.repr := by
  intro m n h
  have hd : Nat.toDigits 10 m = Nat.toDigits 10 n := congrArg String.data h
  rw [← decDecode_toDigits m, ← decDecode_toDigits n, hd]

theorem teamLabel_eq (i : Nat) : teamLabel i = "Expansion Team " ++ Nat.repr (i + 1) := by
  show "Expansion Team " ++ Nat.repr (i + 1) ++ "" = _
  rw [String.append_empty]

theorem teamLabel_injective : Function.Injective teamLabel := by
  intro i j h
  rw [teamLabel_eq, teamLabel_eq] at h
  have hdata := congrArg String.data h
  rw [String.data_append, String.data_append] at hdata
  have := List.append_cancel_left hdata
  have hrepr : Nat.repr (i + 1) = Nat.repr (j + 1) := string_data_inj this
  have := repr_injective hrepr
  omega

theorem teamLabels_length (n : Nat) : (teamLabels n).length = n := by
  simp [teamLabels]

theorem teamLabels_nodup (n : Nat) : (teamLabels n).Nodup := by
  exact (List.nodup_range n).map teamLabel_injective

theorem teamLabels_getD {n j : Nat} (hj : j < n) :
    (teamLabels n).getD j "" = teamLabel j := by
  rw [List.getD_eq_getElem _ _ (by rw [teamLabels_length]; exact hj)]
  simp [teamLabels]

/-! ### Partitioner lemmas -/

theorem foldl_append_flatten {α γ : Type} (f : γ → List α) (l : List γ) (init : List α) :
    l.foldl (fun acc b => acc ++ f b) init = init ++ (l.map f).flatten := by
  induction l generalizing init with
  | nil => simp
  | cons b l ih => simp [ih, List.append_assoc]

theorem take_min {α : Type} (l : List α) (c : Nat) : l.take (min c l.length) = l.take c := by
  rw [← List.take_take, List.take_length]

theorem cappedLosses_eq {α : Type} (pos_caps : List (String × Nat))
    (by_pos : List (String × List α)) :
    cappedLosses pos_caps by_pos
      = (by_pos.map (fun g => g.2.take (pyGet pos_caps g.1 g.2.length))).flatten := by
  rw [cappedLosses, foldl_append_flatten]
  rfl

theorem namesOf_isSome_iff {α : Type} [DecidableEq α] (id_to_name : List (α × String))
    (pids : List α) :
    (namesOf id_to_name pids).isSome ↔ ∀ p ∈ pids, (pySub id_to_name p).isSome := by
  induction pids with
  | nil => simp [namesOf]
  | cons p ps ih =>
    rw [namesOf]
    cases hp : pySub id_to_name p with
    | none => simp [hp]
    | some n =>
      cases hps : namesOf id_to_name ps with
      | none =>
        simp only [hps, Option.isSome_none, Bool.false_eq_true, false_iff] at ih
        push_neg at ih
        obtain ⟨q, hq, hq2⟩ := ih
        simp only [Option.isSome_none, Bool.false_eq_true, false_iff]
        push_neg
        exact ⟨q, by simp [hq], by simp [hq2]⟩
      | some ns =>
        simp only [hps, Option.isSome_some, true_iff] at ih
        simp only [Option.isSome_some, true_iff]
        intro q hq
        rcases List.mem_cons.mp hq with h | h
        · subst h; simp [hp]
        · exact ih q h

theorem processOwners_isSome_iff {α β : Type} [DecidableEq α] [DecidableEq β]
    (id_to_name id_to_pos : List (α × String)) (max_protect : Nat)
    (pos_caps : List (String × Nat)) (overrides : List (β × List α))
    (rosters : List (β × List α)) :
    (processOwners id_to_name id_to_pos max_protect pos_caps overrides rosters).isSome
      ↔ ∀ r ∈ rosters,
          (namesOf id_to_name (protectedOf overrides r.1 r.2 max_protect)).isSome
          ∧ (namesOf id_to_name
              (ownerLossList id_to_pos pos_caps overrides max_protect r.1 r.2)).isSome := by
  induction rosters with
  | nil => simp [processOwners]
  | cons r rest ih =>
    obtain ⟨owner, roster_ids⟩ := r
    rw [processOwners]
    cases hp : namesOf id_to_name (protectedOf overrides owner roster_ids max_protect) with
    | none =>
      constructor
      · intro h; simp at h
      · intro h
        have := (h (owner, roster_ids) (by simp)).1
        rw [hp] at this
        simp at this
    | some pn =>
      cases hl : namesOf id_to_name
          (ownerLosses id_to_pos pos_caps
            (candidatesOf roster_ids (protectedOf overrides owner roster_ids max_protect))) with
      | none =>
        constructor
        · intro h; simp at h
        · intro h
          have := (h (owner, roster_ids) (by simp)).2
          rw [ownerLossList] at this
          rw [hl] at this
          simp at this
      | some ln =>
        cases hrest : processOwners id_to_name id_to_pos max_protect pos_caps overrides rest with
        | none =>
          rw [hrest] at ih
          simp only [Option.isSome_none, Bool.false_eq_true, false_iff] at ih
          push_neg at ih
          obtain ⟨q, hq, hq2⟩ := ih
          constructor
          · intro h; simp at h
          · intro h
            exfalso
            have hq1 := (h q (by simp [hq])).1
            have hq3 := (h q (by simp [hq])).2
            exact (by simpa using hq2 hq1 : ¬ _) hq3
        | some res =>
          rw [hrest] at ih
          simp only [Option.isSome_some, true_iff] at ih
          obtain ⟨bd, pool⟩ := res
          simp only [Option.isSome_some, true_iff]
          intro q hq
          rcases List.mem_cons.mp hq with h | h
          · subst h
            refine ⟨by simp [hp], ?_⟩
            rw [ownerLossList, hl]
            simp
          · exact ih q h

theorem processOwners_some_pool {α β : Type} [DecidableEq α] [DecidableEq β]
    (id_to_name id_to_pos : List (α × String)) (max_protect : Nat)
    (pos_caps : List (String × Nat)) (overrides : List (β × List α)) :
    ∀ (rosters : List (β × List α)) (bd : List (β × OwnerBreakdown)) (pool : List α),
      processOwners id_to_name id_to_pos max_protect pos_caps overrides rosters
        = some (bd, pool) →
      pool = poolOf rosters id_to_pos max_protect pos_caps overrides := by
  intro rosters
  induction rosters with
  | nil =>
    intro bd pool h
    rw [processOwners] at h
    simp only [Option.some.injEq, Prod.mk.injEq] at h
    rw [← h.2]
    simp [poolOf]
  | cons r rest ih =>
    intro bd pool h
    obtain ⟨owner, roster_ids⟩ := r
    rw [processOwners] at h
    cases hp : namesOf id_to_name (protectedOf overrides owner roster_ids max_protect) with
    | none => rw [hp] at h; simp at h
    | some pn =>
      cases hl : namesOf id_to_name
          (ownerLosses id_to_pos pos_caps
            (candidatesOf roster_ids (protectedOf overrides owner roster_ids max_protect))) with
      | none => rw [hp, hl] at h; simp at h
      | some ln =>
        cases hrest : processOwners id_to_name id_to_pos max_protect pos_caps overrides rest with
        | none => rw [hp, hl, hrest] at h; simp at h
        | some res =>
          obtain ⟨bd', pool'⟩ := res
          rw [hp, hl, hrest] at h
          simp only [Option.some.injEq, Prod.mk.injEq] at h
          rw [← h.2]
          rw [ih bd' pool' hrest]
          simp [poolOf, ownerLossList]

theorem simulate_pool_eq {α β : Type} [DecidableEq α] [DecidableEq β]
    (rosters : List (β × List α)) (id_to_name id_to_pos : List (α × String))
    (max_protect : Nat) (pos_caps : List (String × Nat))
    (num_teams picks_per_team : Nat) (fmt : DraftFormat)
    (overrides : List (β × List α))
    (bd : List (β × OwnerBreakdown)) (dp : List α) (pk : List (String × List α))
    (h : simulate_and_draft rosters id_to_name id_to_pos max_protect pos_caps
        num_teams picks_per_team fmt overrides = some (bd, dp, pk)) :
    dp = (poolOf rosters id_to_pos max_protect pos_caps overrides).take
        (num_teams * picks_per_team) := by
  rw [simulate_and_draft] at h
  cases hp : processOwners id_to_name id_to_pos max_protect pos_caps overrides rosters with
  | none => rw [hp] at h; simp at h
  | some res =>
    obtain ⟨bd', pool⟩ := res
    rw [hp] at h
    simp only [Option.some.injEq, Prod.mk.injEq] at h
    rw [← h.2.1, processOwners_some_pool id_to_name id_to_pos max_protect pos_caps overrides
      rosters bd' pool hp]

theorem setdefaultAppend_mem_new {K V : Type} [DecidableEq K] (acc : List (K × List V))
    (k : K) (v : V) : ∃ grp, (k, grp) ∈ setdefaultAppend acc k v ∧ v ∈ grp := by
  induction acc with
  | nil => exact ⟨[v], by simp [setdefaultAppend], by simp⟩
  | cons e rest ih =>
    obtain ⟨k', vs⟩ := e
    rw [setdefaultAppend]
    by_cases hk : k' = k
    · subst hk
      exact ⟨vs ++ [v], by simp, by simp⟩
    · obtain ⟨grp, hg, hv⟩ := ih
      exact ⟨grp, by simp [hk, hg], hv⟩

theorem setdefaultAppend_mem_old {K V : Type} [DecidableEq K] (acc : List (K × List V))
    (k' : K) (v' : V) {k : K} {grp : List V} {v : V}
    (hmem : (k, grp) ∈ acc) (hv : v ∈ grp) :
    ∃ grp', (k, grp') ∈ setdefaultAppend acc k' v' ∧ v ∈ grp' := by
  induction acc with
  | nil => simp at hmem
  | cons e rest ih =>
    obtain ⟨k₀, vs₀⟩ := e
    rw [setdefaultAppend]
    by_cases hk : k₀ = k'
    · rcases List.mem_cons.mp hmem with h | h
      · obtain ⟨h1, h2⟩ := Prod.mk.injEq .. ▸ h
        injection h with h1 h2
        subst h1; subst h2
        exact ⟨grp ++ [v'], by simp [hk], by simp [hv]⟩
      · exact ⟨grp, by simp [hk, h], hv⟩
    · rcases List.mem_cons.mp hmem with h | h
      · injection h with h1 h2
        subst h1; subst h2
        exact ⟨grp, by simp [hk], hv⟩
      · obtain ⟨grp', hg, hv'⟩ := ih h
        exact ⟨grp', by simp [hk, hg], hv'⟩

theorem foldl_setdefaultAppend_mem {α : Type} [DecidableEq α] (key : α → String) :
    ∀ (cs : List α) (acc : List (String × List α)) {k : String} {grp : List α} {v : α},
      (k, grp) ∈ acc → v ∈ grp →
      ∃ grp', (k, grp') ∈ cs.foldl (fun acc p => setdefaultAppend acc (key p) p) acc ∧ v ∈ grp' := by
  intro cs
  induction cs with
  | nil => intro acc k grp v hmem hv; exact ⟨grp, hmem, hv⟩
  | cons c cs ih =>
    intro acc k grp v hmem hv
    rw [List.foldl_cons]
    obtain ⟨grp', hg, hv'⟩ := setdefaultAppend_mem_old acc (key c) c hmem hv
    exact ih _ hg hv'

theorem mem_groupByPos {α : Type} [DecidableEq α] (id_to_pos : List (α × String)) :
    ∀ (cands : List α) (pid : α), pid ∈ cands →
      ∃ grp, (pyGet id_to_pos pid "UNK", grp) ∈ groupByPos id_to_pos cands ∧ pid ∈ grp := by
  have main : ∀ (cs : List α) (acc : List (String × List α)) (pid : α), pid ∈ cs →
      ∃ grp, (pyGet id_to_pos pid "UNK", grp)
        ∈ cs.foldl (fun acc p => setdefaultAppend acc (pyGet id_to_pos p "UNK") p) acc
        ∧ pid ∈ grp := by
    intro cs
    induction cs with
    | nil => intro acc pid h; simp at h
    | cons c cs ih =>
      intro acc pid h
      rw [List.foldl_cons]
      rcases List.mem_cons.mp h with h | h
      · subst h
        obtain ⟨grp, hg, hv⟩ := setdefaultAppend_mem_new acc (pyGet id_to_pos pid "UNK") pid
        exact foldl_setdefaultAppend_mem (fun p => pyGet id_to_pos p "UNK") cs _ hg hv
      · exact ih _ pid h
  intro cands pid h
  exact main cands [] pid h

/-! ### Claim C2: per-position cap contributions -/

/-- C2: within an owner's non-protected candidates, every position group
with cap `c` (looked up in `pos_caps`) and size `g` contributes exactly its
first `min c g` players, in group order, to the loss sequence; a position
absent from `pos_caps` defaults to a cap of the group's own size, so the
whole group is taken. -/
theorem position_group_losses {α : Type} [DecidableEq α] (id_to_pos : List (α × String))
    (pos_caps : List (String × Nat)) (roster_ids prot : List α) :
    (ownerLosses id_to_pos pos_caps (candidatesOf roster_ids prot)
      = ((groupByPos id_to_pos (candidatesOf roster_ids prot)).map
          (fun g => g.2.take (min (pyGet pos_caps g.1 g.2.length) g.2.length))).flatten)
    ∧ (∀ pos grp, (pos, grp) ∈ groupByPos id_to_pos (candidatesOf roster_ids prot) →
        (grp.take (min (pyGet pos_caps pos grp.length) grp.length)).length
          = min (pyGet pos_caps pos grp.length) grp.length)
    ∧ (∀ pos grp, (pos, grp) ∈ groupByPos id_to_pos (candidatesOf roster_ids prot) →
        pySub pos_caps pos = none →
        grp.take (min (pyGet pos_caps pos grp.length) grp.length) = grp) := by
  refine ⟨?_, ?_, ?_⟩
  · rw [ownerLosses, cappedLosses_eq]
    congr 1
    refine List.map_congr_left ?_
    intro g _
    exact (take_min g.2 (pyGet pos_caps g.1 g.2.length)).symm
  · intro pos grp _
    rw [List.length_take]
    omega
  · intro pos grp _ habs
    rw [pySub_none_pyGet habs]
    simp

theorem position_group_losses_witness :
    (ownerLosses [(1, "RB"), (2, "RB"), (3, "WR")] [("RB", 1)]
        (candidatesOf [1, 2, 3] ([] : List Nat))
      = ((groupByPos [(1, "RB"), (2, "RB"), (3, "WR")]
            (candidatesOf [1, 2, 3] ([] : List Nat))).map
          (fun g => g.2.take (min (pyGet [("RB", 1)] g.1 g.2.length) g.2.length))).flatten)
    ∧ ([3] : List Nat).take (min (pyGet [("RB", 1)] "WR" ([3] : List Nat).length)
        ([3] : List Nat).length) = [3] :=
  ⟨(position_group_losses [(1, "RB"), (2, "RB"), (3, "WR")] [("RB", 1)] [1, 2, 3] []).1,
    (position_group_losses [(1, "RB"), (2, "RB"), (3, "WR")] [("RB", 1)] [1, 2, 3] []).2.2
      "WR" [3] (by decide) (by decide)⟩

/-! ### Claim C3: the returned draft pool -/

/-- C3: on a successful run, the returned draft pool is the concatenation
(in roster-map iteration order) of the owners' loss sequences truncated to
the first `num_teams * picks_per_team` entries, so its length is the
minimum of that bound and the total number of losses. -/
theorem pool_concat_truncated {α β : Type} [DecidableEq α] [DecidableEq β]
    (rosters : List (β × List α)) (id_to_name id_to_pos : List (α × String))
    (max_protect : Nat) (pos_caps : List (String × Nat))
    (num_teams picks_per_team : Nat) (fmt : DraftFormat) (overrides : List (β × List α))
    (bd : List (β × OwnerBreakdown)) (dp : List α) (pk : List (String × List α))
    (h : simulate_and_draft rosters id_to_name id_to_pos max_protect pos_caps
        num_teams picks_per_team fmt overrides = some (bd, dp, pk)) :
    dp = (poolOf rosters id_to_pos max_protect pos_caps overrides).take
        (num_teams * picks_per_team)
    ∧ dp.length = min (num_teams * picks_per_team)
        ((rosters.map (fun r =>
          (ownerLossList id_to_pos pos_caps overrides max_protect r.1 r.2).length)).sum) := by
  have hdp := simulate_pool_eq rosters id_to_name id_to_pos max_protect pos_caps
    num_teams picks_per_team fmt overrides bd dp pk h
  refine ⟨hdp, ?_⟩
  have hlen : (poolOf rosters id_to_pos max_protect pos_caps overrides).length
      = (rosters.map (fun r =>
          (ownerLossList id_to_pos pos_caps overrides max_protect r.1 r.2).length)).sum := by
    rw [poolOf, List.length_flatten, List.map_map]
    rfl
  rw [hdp, List.length_take, hlen]

theorem pool_concat_truncated_witness :
    ([11, 12] : List Nat)
      = (poolOf [(0, [10, 11, 12, 13])] [(10, "RB"), (11, "RB"), (12, "WR"), (13, "QB")] 1
          [("RB", 1), ("WR", 1), ("QB", 1)] ([] : List (Nat × List Nat))).take (2 * 1)
    ∧ ([11, 12] : List Nat).length = min (2 * 1)
        (([(0, [10, 11, 12, 13])].map (fun r =>
          (ownerLossList [(10, "RB"), (11, "RB"), (12, "WR"), (13, "QB")]
            [("RB", 1), ("WR", 1), ("QB", 1)] ([] : List (Nat × List Nat)) 1 r.1 r.2).length)).sum) :=
  pool_concat_truncated [(0, [10, 11, 12, 13])]
    [(10, "A"), (11, "B"), (12, "C"), (13, "D")]
    [(10, "RB"), (11, "RB"), (12, "WR"), (13, "QB")] 1
    [("RB", 1), ("WR", 1), ("QB", 1)] 2 1 DraftFormat.Snake []
    [(0, ⟨["A"], ["B", "C", "D"]⟩)] [11, 12]
    [("Expansion Team 1", [11]), ("Expansion Team 2", [12])] (by rfl)

/-! ### Claim C4: protection resolution -/

/-- C4: an owner's protected set is the owner's override when present and
otherwise the first `max_protect` roster players; both are truncated to at
most `max_protect` entries, so its length never exceeds `max_protect`, and
`max_protect = 0` protects nobody. -/
theorem protection_resolution {α β : Type} [DecidableEq α] [DecidableEq β]
    (overrides : List (β × List α)) (owner : β) (roster_ids : List α) (max_protect : Nat) :
    (∀ v, pySub overrides owner = some v →
      protectedOf overrides owner roster_ids max_protect = v.take max_protect)
    ∧ (pySub overrides owner = none →
      protectedOf overrides owner roster_ids max_protect = roster_ids.take max_protect)
    ∧ (protectedOf overrides owner roster_ids max_protect).length ≤ max_protect
    ∧ protectedOf overrides owner roster_ids 0 = [] := by
  refine ⟨?_, ?_, ?_, ?_⟩
  · intro v hv
    rw [protectedOf, pySub_some_pyGet hv]
  · intro hnone
    rw [protectedOf, pySub_none_pyGet hnone, List.take_take]
    simp
  · rw [protectedOf, List.length_take]
    omega
  · rw [protectedOf]
    simp

theorem protection_resolution_witness :
    (pySub [(0, [5, 6, 7])] (0 : Nat) = some [5, 6, 7]
      → protectedOf [(0, [5, 6, 7])] (0 : Nat) ([1, 2, 3] : List Nat) 2 = [5, 6, 7].take 2)
    ∧ (pySub [(0, [5, 6, 7])] (1 : Nat) = none
      → protectedOf [(0, [5, 6, 7])] (1 : Nat) ([1, 2, 3] : List Nat) 2 = [1, 2, 3].take 2)
    ∧ (protectedOf [(0, [5, 6, 7])] (0 : Nat) ([1, 2, 3] : List Nat) 2).length ≤ 2
    ∧ protectedOf [(0, [5, 6, 7])] (0 : Nat) ([1, 2, 3] : List Nat) 0 = [] :=
  ⟨fun _ => (protection_resolution [(0, [5, 6, 7])] 0 [1, 2, 3] 2).1 [5, 6, 7] (by rfl),
    fun _ => (protection_resolution [(0, [5, 6, 7])] 1 [1, 2, 3] 2).2.1 (by rfl),
    (protection_resolution [(0, [5, 6, 7])] 0 [1, 2, 3] 2).2.2.1,
    (protection_resolution [(0, [5, 6, 7])] 0 [1, 2, 3] 0).2.2.2⟩

/-! ### Claim C6: manual-mode validation -/

theorem invalidOwners_eq_nil_iff {α β : Type} (ov : List (β × List α)) (m : Nat) :
    invalidOwners ov m = [] ↔ ∀ op ∈ ov, op.2.length = m := by
  rw [invalidOwners]
  constructor
  · intro h op hop
    by_contra hne
    have : op.1 ∈ ([] : List β) := by
      rw [← h]
      exact List.mem_map_of_mem Prod.fst (List.mem_filter.mpr ⟨hop, by simpa using hne⟩)
    simp at this
  · intro h
    have : ov.filter (fun op => decide (op.2.length ≠ m)) = [] := by
      rw [List.filter_eq_nil_iff]
      intro op hop
      simpa using h op hop
    rw [this]
    rfl

theorem mem_invalidOwners {α β : Type} (ov : List (β × List α)) (m : Nat) (o : β) :
    o ∈ invalidOwners ov m ↔ ∃ op ∈ ov, op.1 = o ∧ op.2.length ≠ m := by
  rw [invalidOwners]
  constructor
  · intro h
    obtain ⟨op, hop, heq⟩ := List.mem_map.mp h
    obtain ⟨hmem, hlen⟩ := List.mem_filter.mp hop
    exact ⟨op, hmem, heq, by simpa using hlen⟩
  · intro ⟨op, hmem, heq, hlen⟩
    exact List.mem_map.mpr ⟨op, List.mem_filter.mpr ⟨hmem, by simpa using hlen⟩, heq⟩

/-- C6: in manual mode the run aborts (yields `Except.error`) iff some
owner's override length differs from `max_protect`; on abort the reported
list is exactly the violating owners and no simulation output exists
(`Except.error` carries only the owner list); a successful run implies all
override lengths match. -/
theorem manual_validation_abort {α β : Type} [DecidableEq α] [DecidableEq β]
    (rosters : List (β × List α)) (id_to_name id_to_pos : List (α × String))
    (max_protect : Nat) (pos_caps : List (String × Nat))
    (num_teams picks_per_team : Nat) (fmt : DraftFormat)
    (protection_overrides : List (β × List α)) :
    ((∃ e, runManual rosters id_to_name id_to_pos max_protect pos_caps num_teams
        picks_per_team fmt protection_overrides = Except.error e)
      ↔ ∃ op ∈ protection_overrides, op.2.length ≠ max_protect)
    ∧ (∀ e, runManual rosters id_to_name id_to_pos max_protect pos_caps num_teams
        picks_per_team fmt protection_overrides = Except.error e →
        e = invalidOwners protection_overrides max_protect
        ∧ (∀ o ∈ e, ∃ op ∈ protection_overrides, op.1 = o ∧ op.2.length ≠ max_protect)
        ∧ (∀ op ∈ protection_overrides, op.2.length ≠ max_protect → op.1 ∈ e))
    ∧ (∀ out, runManual rosters id_to_name id_to_pos max_protect pos_caps num_teams
        picks_per_team fmt protection_overrides = Except.ok out →
        ∀ op ∈ protection_overrides, op.2.length = max_protect) := by
  rw [runManual]
  cases hinv : invalidOwners protection_overrides max_protect with
  | nil =>
    refine ⟨?_, ?_, ?_⟩
    · constructor
      · intro ⟨e, he⟩; simp at he
      · intro ⟨op, hop, hlen⟩
        exact absurd ((invalidOwners_eq_nil_iff protection_overrides max_protect).mp hinv op hop) hlen
    · intro e he; simp at he
    · intro out _
      exact (invalidOwners_eq_nil_iff protection_overrides max_protect).mp hinv
  | cons o rest =>
    refine ⟨?_, ?_, ?_⟩
    · constructor
      · intro _
        have ho : o ∈ invalidOwners protection_overrides max_protect := by rw [hinv]; simp
        obtain ⟨op, hmem, _, hlen⟩ := (mem_invalidOwners protection_overrides max_protect o).mp ho
        exact ⟨op, hmem, hlen⟩
      · intro _
        exact ⟨o :: rest, rfl⟩
    · intro e he
      have he2 : e = o :: rest := by cases he; rfl
      subst he2
      refine ⟨rfl, ?_, ?_⟩
      · intro o' ho'
        rw [← hinv] at ho'
        exact (mem_invalidOwners protection_overrides max_protect o').mp ho'
      · intro op hop hlen
        rw [← hinv]
        exact (mem_invalidOwners protection_overrides max_protect op.1).mpr ⟨op, hop, rfl, hlen⟩
    · intro out hout; simp at hout

theorem manual_validation_abort_witness :
    ∃ op ∈ [((0 : Nat), [1]), (1, ([] : List Nat))], op.2.length ≠ 1 :=
  (manual_validation_abort [(0, [1]), (1, [2])] [(1, "A"), (2, "B")] [] 1 [] 1 1
      DraftFormat.Snake [(0, [1]), (1, [])]).1.mp ⟨[1], by rfl⟩

/-! ### Claim C7: missing metadata -/

/-- C7 counterexample: player 2 appears in the loss sequence and is absent
from both `id_to_name` and `id_to_pos`; the claim says the run still
completes, but `simulate_and_draft` raises a `KeyError` at the
`id_to_name[p]` lookup of line 63 (modelled by `none`). -/
theorem missing_name_metadata_aborts :
    simulate_and_draft [(0, [1, 2])] [(1, "A")] ([] : List (Nat × String)) 1 [] 1 1
      DraftFormat.Snake ([] : List (Nat × List Nat)) = none := by rfl

/-- C7 amended: ids absent from `id_to_pos` never abort the run — they are
grouped under the `"UNK"` placeholder — and the run completes whenever
every id of every owner's protected and loss sequences has an `id_to_name`
entry; a protected or loss id absent from `id_to_name` is the only way
partitioning can raise. -/
theorem missing_metadata_tolerance {α β : Type} [DecidableEq α] [DecidableEq β]
    (rosters : List (β × List α)) (id_to_name id_to_pos : List (α × String))
    (max_protect : Nat) (pos_caps : List (String × Nat))
    (num_teams picks_per_team : Nat) (fmt : DraftFormat) (overrides : List (β × List α))
    (hnames : ∀ r ∈ rosters,
      (∀ pid ∈ protectedOf overrides r.1 r.2 max_protect, (pySub id_to_name pid).isSome)
      ∧ (∀ pid ∈ ownerLossList id_to_pos pos_caps overrides max_protect r.1 r.2,
          (pySub id_to_name pid).isSome)) :
    (simulate_and_draft rosters id_to_name id_to_pos max_protect pos_caps num_teams
      picks_per_team fmt overrides).isSome
    ∧ (∀ (cands : List α) (pid : α), pid ∈ cands → pySub id_to_pos pid = none →
        ∃ grp, ("UNK", grp) ∈ groupByPos id_to_pos cands ∧ pid ∈ grp) := by
  constructor
  · have hpo : (processOwners id_to_name id_to_pos max_protect pos_caps overrides
        rosters).isSome :=
      (processOwners_isSome_iff id_to_name id_to_pos max_protect pos_caps overrides
        rosters).mpr (fun r hr =>
          ⟨(namesOf_isSome_iff id_to_name _).mpr (hnames r hr).1,
            (namesOf_isSome_iff id_to_name _).mpr (hnames r hr).2⟩)
    rw [simulate_and_draft]
    cases hp : processOwners id_to_name id_to_pos max_protect pos_caps overrides rosters with
    | none => rw [hp] at hpo; simp at hpo
    | some res =>
      obtain ⟨bd, pool⟩ := res
      simp
  · intro cands pid hmem hnone
    have h := mem_groupByPos id_to_pos cands pid hmem
    rw [pySub_none_pyGet hnone] at h
    exact h

theorem missing_metadata_tolerance_witness :
    (simulate_and_draft [(0, [1, 2])] [(1, "A"), (2, "B")] ([] : List (Nat × String)) 1 [] 1 1
      DraftFormat.Snake ([] : List (Nat × List Nat))).isSome
    ∧ ∃ grp, ("UNK", grp) ∈ groupByPos ([] : List (Nat × String)) [2] ∧ 2 ∈ grp :=
  ⟨(missing_metadata_tolerance [(0, [1, 2])] [(1, "A"), (2, "B")] [] 1 [] 1 1
      DraftFormat.Snake [] (by decide)).1,
    (missing_metadata_tolerance [(0, [1, 2])] [(1, "A"), (2, "B")] [] 1 [] 1 1
      DraftFormat.Snake [] (by decide)).2 [2] 2 (by decide) (by rfl)⟩

/-! ### Claim C9: protection overrides referencing non-roster players -/

/-- C9 counterexample: owner 0's override names player 2, absent from the
roster and from `id_to_name`; the claim says partitioning raises no error
for every such input, but the `id_to_name[p]` lookup of line 62 raises a
`KeyError` (modelled by `none`). -/
theorem nonroster_override_aborts :
    simulate_and_draft [(0, [1])] [(1, "A")] ([] : List (Nat × String)) 1 [] 1 1
      DraftFormat.Snake [(0, [2])] = none := by rfl

/-- C9 amended: non-roster identifiers in an override are silently allowed
by the candidate computation, which is pure membership filtering — removing
them from the protected list leaves the candidates unchanged, so they only
waste protection slots — and an owner with an empty roster contributes no
losses; the run completes provided every protected and loss id has an
`id_to_name` entry (a non-roster override id without a name entry raises at
the line-62 name lookup). -/
theorem nonroster_override_tolerance {α β : Type} [DecidableEq α] [DecidableEq β]
    (rosters : List (β × List α)) (id_to_name id_to_pos : List (α × String))
    (max_protect : Nat) (pos_caps : List (String × Nat))
    (num_teams picks_per_team : Nat) (fmt : DraftFormat) (overrides : List (β × List α))
    (hnames : ∀ r ∈ rosters,
      (∀ pid ∈ protectedOf overrides r.1 r.2 max_protect, (pySub id_to_name pid).isSome)
      ∧ (∀ pid ∈ ownerLossList id_to_pos pos_caps overrides max_protect r.1 r.2,
          (pySub id_to_name pid).isSome)) :
    (simulate_and_draft rosters id_to_name id_to_pos max_protect pos_caps num_teams
      picks_per_team fmt overrides).isSome
    ∧ (∀ roster_ids prot : List α, candidatesOf roster_ids prot
        = candidatesOf roster_ids (prot.filter (fun p => decide (p ∈ roster_ids))))
    ∧ (∀ owner : β, ownerLossList id_to_pos pos_caps overrides max_protect owner [] = []) := by
  refine ⟨?_, ?_, ?_⟩
  · have hpo : (processOwners id_to_name id_to_pos max_protect pos_caps overrides
        rosters).isSome :=
      (processOwners_isSome_iff id_to_name id_to_pos max_protect pos_caps overrides
        rosters).mpr (fun r hr =>
          ⟨(namesOf_isSome_iff id_to_name _).mpr (hnames r hr).1,
            (namesOf_isSome_iff id_to_name _).mpr (hnames r hr).2⟩)
    rw [simulate_and_draft]
    cases hp : processOwners id_to_name id_to_pos max_protect pos_caps overrides rosters with
    | none => rw [hp] at hpo; simp at hpo
    | some res =>
      obtain ⟨bd, pool⟩ := res
      simp
  · intro roster_ids prot
    rw [candidatesOf, candidatesOf]
    refine List.filter_congr ?_
    intro pid hpid
    simp [List.mem_filter, hpid]
  · intro owner
    rfl

theorem nonroster_override_tolerance_witness :
    (simulate_and_draft [(0, [1])] [(1, "A"), (2, "B")] ([] : List (Nat × String)) 1 [] 1 1
      DraftFormat.Snake [(0, [2])]).isSome
    ∧ candidatesOf [1] ([2] : List Nat)
        = candidatesOf [1] (([2] : List Nat).filter (fun p => decide (p ∈ [1])))
    ∧ ownerLossList ([] : List (Nat × String)) [] [(0, [2])] 1 (0 : Nat) [] = [] :=
  ⟨(nonroster_override_tolerance [(0, [1])] [(1, "A"), (2, "B")] [] 1 [] 1 1
      DraftFormat.Snake [(0, [2])] (by decide)).1,
    (nonroster_override_tolerance [(0, [1])] [(1, "A"), (2, "B")] [] 1 [] 1 1
      DraftFormat.Snake [(0, [2])] (by decide)).2.1 [1] [2],
    (nonroster_override_tolerance [(0, [1])] [(1, "A"), (2, "B")] [] 1 [] 1 1
      DraftFormat.Snake [(0, [2])] (by decide)).2.2 0⟩

/-! ### Claim C8: validation of the AI protection suggestion -/

theorem filterMap_filter_isSome {γ δ : Type} (f : γ → Option δ) (l : List γ) :
    (l.filter (fun a => (f a).isSome)).filterMap f = l.filterMap f := by
  induction l with
  | nil => rfl
  | cons a l ih => cases hf : f a <;> simp [List.filter_cons, hf, ih]

/-- C8 counterexample: the response parses to `["A"]`, which resolves to
the single id 1 while `max_protect = 2`; the claim says a size mismatch
falls back to the first-`max_protect` roster default `[1, 2]`, but
`ai_protect` returns `[1]` unchanged. -/
theorem ai_protect_undersize_no_fallback :
    ai_protect ([1, 2] : List Nat) [(1, "A"), (2, "B")] 2 (some ["A"]) = [1]
    ∧ ([1] : List Nat) ≠ ([1, 2] : List Nat).take 2 := by
  refine ⟨by rfl, by decide⟩

/-- C8 amended: names that resolve to no known id are dropped (filtering
them out of the response changes nothing), every returned id comes from
resolving some response name through the inverted name map, at most
`max_protect` ids are returned, and an unparsable response falls back to
the first `max_protect` roster players; a parsable response whose resolved
list is smaller than `max_protect` is returned as-is, not replaced by the
default. -/
theorem ai_protect_validation {α : Type} [DecidableEq α] (roster_ids : List α)
    (id_to_name : List (α × String)) (max_protect : Nat) :
    (ai_protect roster_ids id_to_name max_protect none = roster_ids.take max_protect)
    ∧ (∀ names, (ai_protect roster_ids id_to_name max_protect (some names)).length
        ≤ max_protect)
    ∧ (∀ names, ∀ p ∈ ai_protect roster_ids id_to_name max_protect (some names),
        ∃ n ∈ names, pySub (invertDict id_to_name) n = some p)
    ∧ (∀ names, ai_protect roster_ids id_to_name max_protect (some names)
        = ai_protect roster_ids id_to_name max_protect
            (some (names.filter (fun n => (pySub (invertDict id_to_name) n).isSome)))) := by
  refine ⟨rfl, ?_, ?_, ?_⟩
  · intro names
    rw [ai_protect, List.length_take]
    omega
  · intro names p hp
    rw [ai_protect] at hp
    have hp2 := List.take_subset max_protect _ hp
    obtain ⟨n, hn, hfn⟩ := List.mem_filterMap.mp hp2
    exact ⟨n, hn, hfn⟩
  · intro names
    rw [ai_protect, ai_protect, filterMap_filter_isSome]

theorem ai_protect_validation_witness :
    (ai_protect ([1, 2] : List Nat) [(1, "A")] 1 none = ([1, 2] : List Nat).take 1)
    ∧ (ai_protect ([1, 2] : List Nat) [(1, "A")] 1 (some ["A", "X"])).length ≤ 1
    ∧ (∃ n ∈ ["A", "X"], pySub (invertDict [((1 : Nat), "A")]) n = some 1)
    ∧ ai_protect ([1, 2] : List Nat) [(1, "A")] 1 (some ["A", "X"])
        = ai_protect ([1, 2] : List Nat) [(1, "A")] 1
            (some (["A", "X"].filter (fun n =>
              (pySub (invertDict [((1 : Nat), "A")]) n).isSome))) :=
  ⟨(ai_protect_validation [1, 2] [(1, "A")] 1).1,
    (ai_protect_validation [1, 2] [(1, "A")] 1).2.1 ["A", "X"],
    (ai_protect_validation [1, 2] [(1, "A")] 1).2.2.1 ["A", "X"] 1 (by decide),
    (ai_protect_validation [1, 2] [(1, "A")] 1).2.2.2 ["A", "X"]⟩

/-! ### Allocation: closed form of the draft loop -/

theorem nodup_getElem_inj {γ : Type} {l : List γ} (h : l.Nodup) {j t : Nat}
    (hj : j < l.length) (ht : t < l.length) (he : l[j] = l[t]) : j = t := by
  have h2 := (List.Nodup.get_inj_iff h (i := ⟨j, hj⟩) (j := ⟨t, ht⟩)).mp
  have h3 : l.get ⟨j, hj⟩ = l.get ⟨t, ht⟩ := by simpa using he
  exact congrArg Fin.val (h2 h3)

theorem targetIdx_lt {n : Nat} (hn : 1 ≤ n) (fmt : DraftFormat) (idx : Nat) :
    targetIdx fmt n idx < n := by
  have hmod : idx % n < n := Nat.mod_lt _ (by omega)
  cases fmt with
  | Snake => rw [targetIdx]; split <;> omega
  | Linear => rw [targetIdx]; omega

theorem pickTeam_eq {n : Nat} (hn : 1 ≤ n) (fmt : DraftFormat) (idx : Nat) :
    pickTeam (teamLabels n) n fmt idx = (teamLabels n).getD (targetIdx fmt n idx) "" := by
  have hmod : idx % n < n := Nat.mod_lt _ (by omega)
  cases fmt with
  | Linear => rfl
  | Snake =>
    rw [pickTeam, targetIdx]
    by_cases hr : (idx / n) % 2 = 0
    · simp only [if_pos hr]
    · simp only [if_neg hr]
      have h1 : n - 1 - idx % n < n := by omega
      rw [List.getD_eq_getElem _ _
            (show idx % n < (teamLabels n).reverse.length by
              rw [List.length_reverse, teamLabels_length]; exact hmod),
          List.getD_eq_getElem _ _
            (show n - 1 - idx % n < (teamLabels n).length by
              rw [teamLabels_length]; exact h1),
          List.getElem_reverse]
      simp [teamLabels]

theorem foldl_appendPick_eq {α : Type} (labels : List String) (hnd : labels.Nodup)
    (tgt : Nat → Nat) :
    ∀ (ps : List (Nat × α)) (bs : Nat → List α),
      (∀ q ∈ ps, tgt q.1 < labels.length) →
      ps.foldl (fun picks q => appendPick picks (labels.getD (tgt q.1) "") q.2)
        ((List.range labels.length).map (fun j => (labels.getD j "", bs j)))
      = (List.range labels.length).map
          (fun j => (labels.getD j "",
            bs j ++ (ps.filter (fun q => decide (tgt q.1 = j))).map Prod.snd)) := by
  intro ps
  induction ps with
  | nil =>
    intro bs _
    simp
  | cons q ps ih =>
    intro bs htgt
    have ht : tgt q.1 < labels.length := htgt q (by simp)
    rw [List.foldl_cons]
    have hstep : appendPick ((List.range labels.length).map (fun j => (labels.getD j "", bs j)))
        (labels.getD (tgt q.1) "") q.2
        = (List.range labels.length).map
            (fun j => (labels.getD j "", if j = tgt q.1 then bs j ++ [q.2] else bs j)) := by
      rw [appendPick, List.map_map]
      refine List.map_congr_left ?_
      intro j hj
      have hjn : j < labels.length := List.mem_range.mp hj
      show (if labels.getD j "" = labels.getD (tgt q.1) ""
          then (labels.getD j "", bs j ++ [q.2]) else (labels.getD j "", bs j))
        = (labels.getD j "", if j = tgt q.1 then bs j ++ [q.2] else bs j)
      by_cases hc : j = tgt q.1
      · rw [if_pos (by rw [hc]), if_pos hc]
      · have hne : labels.getD j "" ≠ labels.getD (tgt q.1) "" := by
          rw [List.getD_eq_getElem _ _ hjn, List.getD_eq_getElem _ _ ht]
          intro hcc
          exact hc (nodup_getElem_inj hnd hjn ht hcc)
        rw [if_neg hne, if_neg hc]
    rw [hstep,
      ih (fun j => if j = tgt q.1 then bs j ++ [q.2] else bs j)
        (fun r hr => htgt r (by simp [hr]))]
    refine List.map_congr_left ?_
    intro j hj
    rw [List.filter_cons]
    by_cases hc : tgt q.1 = j
    · rw [if_pos hc.symm, if_pos (by simp [hc])]
      simp [List.append_assoc]
    · rw [if_neg (fun h => hc h.symm), if_neg (by simp [hc])]

theorem allocatePicks_eq {α : Type} (pool : List α) {n : Nat} (hn : 1 ≤ n)
    (fmt : DraftFormat) :
    allocatePicks pool n fmt
      = (List.range n).map (fun j =>
          (teamLabel j,
            (pool.enum.filter (fun q => decide (targetIdx fmt n q.1 = j))).map Prod.snd)) := by
  rw [allocatePicks]
  have hinit : (teamLabels n).map (fun t => (t, ([] : List α)))
      = (List.range (teamLabels n).length).map
          (fun j => ((teamLabels n).getD j "", ([] : List α))) := by
    rw [teamLabels_length]
    have hgd : (List.range n).map (fun j => ((teamLabels n).getD j "", ([] : List α)))
        = (List.range n).map (fun j => (teamLabel j, ([] : List α))) :=
      List.map_congr_left (fun j hj => by rw [teamLabels_getD (List.mem_range.mp hj)])
    rw [hgd, teamLabels, List.map_map]
    rfl
  have hfun : ∀ (picks : List (String × List α)), ∀ q ∈ pool.enum,
      appendPick picks (pickTeam (teamLabels n) n fmt q.1) q.2
        = appendPick picks ((teamLabels n).getD (targetIdx fmt n q.1) "") q.2 := by
    intro picks q _
    rw [pickTeam_eq hn]
  rw [hinit, List.foldl_ext _ _ _ hfun,
    foldl_appendPick_eq (teamLabels n) (teamLabels_nodup n) (targetIdx fmt n) pool.enum
      (fun _ => ([] : List α))
      (fun q _ => by rw [teamLabels_length]; exact targetIdx_lt hn fmt q.1),
    teamLabels_length]
  refine List.map_congr_left ?_
  intro j hj
  rw [teamLabels_getD (List.mem_range.mp hj)]
  simp

/-! ### Claim C1: snake allocation -/

/-- C1: with format Snake, the player at 0-based index `idx` of the
truncated pool is assigned to the team at position `idx % num_teams` on
even rounds (`idx / num_teams`) and at position
`num_teams - 1 - idx % num_teams` on odd rounds: team `j`'s pick list is
exactly the subsequence of pool entries whose index maps to `j`. -/
theorem snake_allocation {α : Type} (pool : List α) (num_teams picks_per_team : Nat)
    (hn : 1 ≤ num_teams) (hp : 1 ≤ picks_per_team) :
    allocatePicks (pool.take (num_teams * picks_per_team)) num_teams DraftFormat.Snake
      = (List.range num_teams).map (fun j =>
          (teamLabel j,
            ((pool.take (num_teams * picks_per_team)).enum.filter (fun q =>
              decide ((if (q.1 / num_teams) % 2 = 0 then q.1 % num_teams
                       else num_teams - 1 - q.1 % num_teams) = j))).map Prod.snd)) := by
  rw [allocatePicks_eq _ hn]
  rfl

theorem snake_allocation_witness :
    (1 ≤ 2 ∧ 1 ≤ 2)
    ∧ allocatePicks (([1, 2, 3, 4] : List Nat).take (2 * 2)) 2 DraftFormat.Snake
      = [("Expansion Team 1", [1, 4]), ("Expansion Team 2", [2, 3])] := by
  refine ⟨⟨by omega, by omega⟩, ?_⟩
  rw [snake_allocation [1, 2, 3, 4] 2 2 (by omega) (by omega)]
  rfl

/-! ### Claim C5: linear allocation -/

/-- C5: with format Linear, the player at 0-based index `idx` of the
truncated pool is assigned to the team at position `idx % num_teams` in
every round: team `j`'s pick list is exactly the subsequence of pool
entries whose index is congruent to `j` modulo `num_teams`. -/
theorem linear_allocation {α : Type} (pool : List α) (num_teams picks_per_team : Nat)
    (hn : 1 ≤ num_teams) (hp : 1 ≤ picks_per_team) :
    allocatePicks (pool.take (num_teams * picks_per_team)) num_teams DraftFormat.Linear
      = (List.range num_teams).map (fun j =>
          (teamLabel j,
            ((pool.take (num_teams * picks_per_team)).enum.filter (fun q =>
              decide (q.1 % num_teams = j))).map Prod.snd)) := by
  rw [allocatePicks_eq _ hn]
  rfl

theorem linear_allocation_witness :
    (1 ≤ 3 ∧ 1 ≤ 2)
    ∧ allocatePicks (([5, 6, 7, 8, 9] : List Nat).take (3 * 2)) 3 DraftFormat.Linear
      = [("Expansion Team 1", [5, 8]), ("Expansion Team 2", [6, 9]),
         ("Expansion Team 3", [7])] := by
  refine ⟨⟨by omega, by omega⟩, ?_⟩
  rw [linear_allocation [5, 6, 7, 8, 9] 3 2 (by omega) (by omega)]
  rfl

/-! ### Allocation: per-team pick counts -/

/-- The team position receiving position `i` of round `r` (the allocation
loop visits each round as `n` consecutive pool indices). -/
def roundTarget (fmt : DraftFormat) (n r i : Nat) : Nat :=
  match fmt with
  | DraftFormat.Snake => if r % 2 = 0 then i else n - 1 - i
  | DraftFormat.Linear => i

theorem targetIdx_decomp {n : Nat} (hn : 1 ≤ n) (fmt : DraftFormat) (r i : Nat)
    (hi : i < n) : targetIdx fmt n (n * r + i) = roundTarget fmt n r i := by
  have hdiv : (n * r + i) / n = r := by
    rw [Nat.mul_add_div (by omega)]
    simp [Nat.div_eq_of_lt hi]
  have hmod : (n * r + i) % n = i := by
    rw [Nat.mul_add_mod]
    exact Nat.mod_eq_of_lt hi
  cases fmt with
  | Snake => rw [targetIdx, roundTarget, hdiv, hmod]
  | Linear => rw [targetIdx, roundTarget, hmod]

theorem countP_congr_list {γ : Type} (l : List γ) (p q : γ → Bool)
    (h : ∀ a ∈ l, p a = q a) : l.countP p = l.countP q := by
  rw [List.countP_eq_length_filter, List.countP_eq_length_filter, List.filter_congr h]

theorem countP_range_eq_single (j : Nat) : ∀ (n : Nat), j < n →
    (List.range n).countP (fun i => decide (i = j)) = 1 := by
  intro n
  induction n with
  | zero => intro h; omega
  | succ n ih =>
    intro hj
    rw [List.range_succ, List.countP_append]
    by_cases hc : j = n
    · subst hc
      have h0 : (List.range j).countP (fun i => decide (i = j)) = 0 := by
        rw [List.countP_eq_zero]
        intro a ha
        have := List.mem_range.mp ha
        simp
        omega
      rw [h0]
      simp
    · rw [ih (by omega)]
      have h0 : ([n] : List Nat).countP (fun i => decide (i = j)) = 0 := by
        rw [List.countP_eq_zero]
        intro a ha
        simp at ha
        subst ha
        simp
        exact fun h => hc h.symm
      rw [h0]

theorem countP_roundTarget_eq_one {n : Nat} (hn : 1 ≤ n) (fmt : DraftFormat) (r : Nat)
    {j : Nat} (hj : j < n) :
    (List.range n).countP (fun i => decide (roundTarget fmt n r i = j)) = 1 := by
  cases fmt with
  | Linear => exact countP_range_eq_single j n hj
  | Snake =>
    by_cases hr : r % 2 = 0
    · have hcg : ∀ i ∈ List.range n,
          (decide (roundTarget DraftFormat.Snake n r i = j)) = decide (i = j) := by
        intro i _
        rw [roundTarget, if_pos hr]
      rw [countP_congr_list _ _ _ hcg]
      exact countP_range_eq_single j n hj
    · have hcg : ∀ i ∈ List.range n,
          (decide (roundTarget DraftFormat.Snake n r i = j)) = decide (i = n - 1 - j) := by
        intro i hi
        have hin : i < n := List.mem_range.mp hi
        rw [roundTarget, if_neg hr, decide_eq_decide]
        omega
      rw [countP_congr_list _ _ _ hcg]
      exact countP_range_eq_single (n - 1 - j) n (by omega)

theorem countP_targetIdx_rounds {n : Nat} (hn : 1 ≤ n) (fmt : DraftFormat) {j : Nat}
    (hj : j < n) : ∀ q : Nat,
    (List.range (n * q)).countP (fun idx => decide (targetIdx fmt n idx = j)) = q := by
  intro q
  induction q with
  | zero => simp
  | succ q ih =>
    have hq : n * (q + 1) = n * q + n := by ring
    rw [hq, List.range_add, List.countP_append, ih, List.countP_map]
    have hcg : ∀ i ∈ List.range n,
        ((fun idx => decide (targetIdx fmt n idx = j)) ∘ (fun i => n * q + i)) i
          = (fun i => decide (roundTarget fmt n q i = j)) i := by
      intro i hi
      simp only [Function.comp]
      rw [targetIdx_decomp hn fmt q i (List.mem_range.mp hi)]
    rw [countP_congr_list _ _ _ hcg, countP_roundTarget_eq_one hn fmt q hj]

theorem countP_range_mono (p : Nat → Bool) {s n : Nat} (hs : s ≤ n) :
    (List.range s).countP p ≤ (List.range n).countP p := by
  have h : n = s + (n - s) := by omega
  rw [h, List.range_add, List.countP_append]
  omega

theorem allocation_count {n : Nat} (hn : 1 ≤ n) (fmt : DraftFormat) {j : Nat} (hj : j < n)
    (L : Nat) :
    ∃ e, e ≤ 1 ∧ (L % n = 0 → e = 0)
      ∧ (List.range L).countP (fun idx => decide (targetIdx fmt n idx = j)) = L / n + e := by
  refine ⟨(List.range (L % n)).countP (fun i => decide (roundTarget fmt n (L / n) i = j)),
    ?_, ?_, ?_⟩
  · calc (List.range (L % n)).countP (fun i => decide (roundTarget fmt n (L / n) i = j))
        ≤ (List.range n).countP (fun i => decide (roundTarget fmt n (L / n) i = j)) :=
          countP_range_mono _ (le_of_lt (Nat.mod_lt _ (by omega)))
      _ = 1 := countP_roundTarget_eq_one hn fmt (L / n) hj
  · intro h0
    rw [h0]
    simp
  · conv_lhs => rw [show L = n * (L / n) + L % n from (Nat.div_add_mod L n).symm]
    rw [List.range_add, List.countP_append, countP_targetIdx_rounds hn fmt hj (L / n),
      List.countP_map]
    congr 1
    apply countP_congr_list
    intro i hi
    have hin : i < n :=
      lt_of_lt_of_le (List.mem_range.mp hi) (le_of_lt (Nat.mod_lt _ (by omega)))
    simp only [Function.comp]
    rw [targetIdx_decomp hn fmt (L / n) i hin]

theorem count_le_picks {n p L : Nat} (hn : 1 ≤ n) (hL : L ≤ n * p) (e : Nat) (he : e ≤ 1)
    (h0 : L % n = 0 → e = 0) : L / n + e ≤ p := by
  have hdiv : L / n ≤ p := by
    have h1 : L / n ≤ n * p / n := Nat.div_le_div_right hL
    rwa [Nat.mul_div_cancel_left p (by omega : 0 < n)] at h1
  rcases Nat.eq_zero_or_pos (L % n) with hz | hpos
  · rw [h0 hz]
    omega
  · have h1 : n * (L / n) < n * p := by
      have := Nat.div_add_mod L n
      omega
    have h2 := Nat.lt_of_mul_lt_mul_left h1
    omega

/-! ### Allocation: the picks partition the truncated pool -/

theorem flatten_map_append_perm {α γ : Type} (l : List γ) (u v : γ → List α) :
    List.Perm ((l.map (fun j => u j ++ v j)).flatten)
      ((l.map u).flatten ++ (l.map v).flatten) := by
  induction l with
  | nil => simp
  | cons a l ih =>
    simp only [List.map_cons, List.flatten_cons]
    rw [List.append_assoc, List.append_assoc]
    refine List.Perm.append_left (u a) ?_
    refine (ih.append_left (v a)).trans ?_
    have h2 : List.Perm (v a ++ ((l.map u).flatten ++ (l.map v).flatten))
        ((l.map u).flatten ++ (v a ++ (l.map v).flatten)) := by
      rw [← List.append_assoc, ← List.append_assoc]
      exact List.perm_append_comm.append_right ((l.map v).flatten)
    exact h2

theorem flatten_map_single {α : Type} (x : α) : ∀ (n t : Nat), t < n →
    ((List.range n).map (fun j => if j = t then [x] else ([] : List α))).flatten = [x] := by
  intro n
  induction n with
  | zero => intro t ht; omega
  | succ n ih =>
    intro t ht
    rw [List.range_succ, List.map_append, List.flatten_append]
    by_cases hc : t = n
    · subst hc
      have hpre : ((List.range t).map
          (fun j => if j = t then [x] else ([] : List α))).flatten = [] := by
        rw [List.flatten_eq_nil_iff]
        intro l hl
        obtain ⟨j, hj, hjl⟩ := List.mem_map.mp hl
        have := List.mem_range.mp hj
        rw [if_neg (by omega)] at hjl
        exact hjl.symm
      rw [hpre]
      simp
    · have htn : t < n := by omega
      rw [ih t htn]
      simp only [List.map_cons, List.map_nil, List.flatten_cons, List.flatten_nil]
      rw [if_neg (fun h => hc h.symm)]
      simp

theorem buckets_perm {α : Type} (n : Nat) (tgt : Nat → Nat) :
    ∀ (ps : List (Nat × α)), (∀ q ∈ ps, tgt q.1 < n) →
      List.Perm (((List.range n).map
          (fun j => (ps.filter (fun q => decide (tgt q.1 = j))).map Prod.snd)).flatten)
        (ps.map Prod.snd) := by
  intro ps
  induction ps with
  | nil =>
    intro _
    simp
  | cons q ps ih =>
    intro htgt
    have ht : tgt q.1 < n := htgt q (by simp)
    have hmap : (List.range n).map
        (fun j => ((q :: ps).filter (fun r => decide (tgt r.1 = j))).map Prod.snd)
        = (List.range n).map (fun j => (if j = tgt q.1 then [q.2] else [])
            ++ ((ps.filter (fun r => decide (tgt r.1 = j))).map Prod.snd)) := by
      refine List.map_congr_left ?_
      intro j _
      rw [List.filter_cons]
      by_cases hc : tgt q.1 = j
      · rw [if_pos (by simp [hc]), if_pos hc.symm]
        simp
      · rw [if_neg (by simp [hc]), if_neg (fun h => hc h.symm)]
        simp
    rw [hmap]
    refine (flatten_map_append_perm (List.range n) _ _).trans ?_
    rw [flatten_map_single q.2 n (tgt q.1) ht]
    simp only [List.singleton_append, List.map_cons]
    exact (ih (fun r hr => htgt r (by simp [hr]))).cons q.2

theorem bucket_unique {α : Type} [DecidableEq α] {tpool : List α} (hnd : tpool.Nodup)
    {n : Nat} (hn : 1 ≤ n) (fmt : DraftFormat) {pid : α} (hmem : pid ∈ tpool) :
    (List.range n).countP (fun j =>
      decide (pid ∈ (tpool.enum.filter
        (fun q => decide (targetIdx fmt n q.1 = j))).map Prod.snd)) = 1 := by
  obtain ⟨i₀, hi₀, hget⟩ := List.mem_iff_getElem.mp hmem
  have hchar : ∀ j ∈ List.range n,
      (decide (pid ∈ (tpool.enum.filter
        (fun q => decide (targetIdx fmt n q.1 = j))).map Prod.snd))
        = decide (j = targetIdx fmt n i₀) := by
    intro j _
    rw [decide_eq_decide]
    constructor
    · intro hp
      obtain ⟨r, hr, hsnd⟩ := List.mem_map.mp hp
      obtain ⟨hrenum, htr⟩ := List.mem_filter.mp hr
      obtain ⟨ri, ra⟩ := r
      have hsub : tpool[ri]? = some ra := List.mk_mem_enum_iff_getElem?.mp hrenum
      obtain ⟨hri, hgetr⟩ := List.getElem?_eq_some.mp hsub
      have hii : ri = i₀ := nodup_getElem_inj hnd hri hi₀ (by rw [hgetr, hget]; exact hsnd)
      have ht2 : targetIdx fmt n ri = j := of_decide_eq_true htr
      rw [hii] at ht2
      exact ht2.symm
    · intro hp
      refine List.mem_map.mpr ⟨(i₀, pid), List.mem_filter.mpr ⟨?_, ?_⟩, rfl⟩
      · exact List.mk_mem_enum_iff_getElem?.mpr (List.getElem?_eq_some.mpr ⟨hi₀, hget⟩)
      · exact decide_eq_true hp.symm
  rw [countP_congr_list _ _ _ hchar]
  exact countP_range_eq_single (targetIdx fmt n i₀) n (targetIdx_lt hn fmt i₀)

theorem bucket_length {α : Type} (tpool : List α) {n : Nat} (fmt : DraftFormat) (j : Nat) :
    ((tpool.enum.filter (fun q => decide (targetIdx fmt n q.1 = j))).map Prod.snd).length
      = (List.range tpool.length).countP (fun idx => decide (targetIdx fmt n idx = j)) := by
  rw [List.length_map, ← List.countP_eq_length_filter]
  have h : List.range tpool.length = tpool.enum.map Prod.fst := (List.enum_map_fst tpool).symm
  rw [h, List.countP_map]
  rfl

/-! ### Claim C10: invariants of the returned picks map -/

/-- C10 counterexample: with pool `[7, 7]`, two teams and one pick each,
the pool player 7 appears in both teams' sequences, so "every player of the
truncated pool appears in exactly one team's sequence" fails when the pool
lists the same id at two positions. -/
theorem duplicate_pid_in_two_teams :
    (7 : Nat) ∈ ([7, 7] : List Nat).take (2 * 1)
    ∧ ((allocatePicks (([7, 7] : List Nat).take (2 * 1)) 2 DraftFormat.Snake).countP
        (fun e => decide ((7 : Nat) ∈ e.2))) ≠ 1 := by
  exact ⟨by decide, by decide⟩

/-- C10 amended: for either format the picks map has exactly the labels
"Expansion Team 1" … N in order; the concatenation of the team sequences is
a permutation of the truncated pool (each pool position is assigned to
exactly one team and no other players appear); each team receives at most
`picks_per_team` players; any two teams' pick counts differ by at most one;
and when the truncated pool has no duplicate ids, every pool player appears
in exactly one team's sequence. -/
theorem allocation_invariants {α : Type} [DecidableEq α] (pool : List α)
    (num_teams picks_per_team : Nat) (fmt : DraftFormat)
    (hn : 1 ≤ num_teams) (hp : 1 ≤ picks_per_team) :
    ((allocatePicks (pool.take (num_teams * picks_per_team)) num_teams fmt).map Prod.fst
      = teamLabels num_teams)
    ∧ List.Perm (((allocatePicks (pool.take (num_teams * picks_per_team)) num_teams fmt).map
        Prod.snd).flatten) (pool.take (num_teams * picks_per_team))
    ∧ (∀ e ∈ allocatePicks (pool.take (num_teams * picks_per_team)) num_teams fmt,
        e.2.length ≤ picks_per_team)
    ∧ (∀ e₁ ∈ allocatePicks (pool.take (num_teams * picks_per_team)) num_teams fmt,
        ∀ e₂ ∈ allocatePicks (pool.take (num_teams * picks_per_team)) num_teams fmt,
        e₁.2.length ≤ e₂.2.length + 1)
    ∧ (∀ pid : α, pid ∉ pool.take (num_teams * picks_per_team) →
        ∀ e ∈ allocatePicks (pool.take (num_teams * picks_per_team)) num_teams fmt,
          pid ∉ e.2)
    ∧ ((pool.take (num_teams * picks_per_team)).Nodup →
        ∀ pid ∈ pool.take (num_teams * picks_per_team),
          (allocatePicks (pool.take (num_teams * picks_per_team)) num_teams fmt).countP
            (fun e => decide (pid ∈ e.2)) = 1) := by
  have hL : (pool.take (num_teams * picks_per_team)).length ≤ num_teams * picks_per_team := by
    rw [List.length_take]
    omega
  rw [allocatePicks_eq _ hn]
  have hperm : List.Perm (((List.range num_teams).map (fun j =>
      (teamLabel j, ((pool.take (num_teams * picks_per_team)).enum.filter
        (fun q => decide (targetIdx fmt num_teams q.1 = j))).map Prod.snd))).map
          Prod.snd).flatten (pool.take (num_teams * picks_per_team)) := by
    rw [List.map_map]
    have h := buckets_perm num_teams (targetIdx fmt num_teams)
      (pool.take (num_teams * picks_per_team)).enum
      (fun q _ => targetIdx_lt hn fmt q.1)
    rw [List.enum_map_snd] at h
    exact h
  refine ⟨?_, hperm, ?_, ?_, ?_, ?_⟩
  · rw [List.map_map]
    rfl
  · intro e he
    obtain ⟨j, hj, hej⟩ := List.mem_map.mp he
    obtain ⟨ex, hex1, hex0, hexeq⟩ :=
      allocation_count hn fmt (List.mem_range.mp hj)
        (pool.take (num_teams * picks_per_team)).length
    have hlen : e.2.length = (pool.take (num_teams * picks_per_team)).length / num_teams
        + ex := by
      rw [← hej, bucket_length, hexeq]
    rw [hlen]
    exact count_le_picks hn hL ex hex1 hex0
  · intro e₁ he₁ e₂ he₂
    obtain ⟨j₁, hj₁, hej₁⟩ := List.mem_map.mp he₁
    obtain ⟨j₂, hj₂, hej₂⟩ := List.mem_map.mp he₂
    obtain ⟨ex₁, hex₁, _, hexeq₁⟩ :=
      allocation_count hn fmt (List.mem_range.mp hj₁)
        (pool.take (num_teams * picks_per_team)).length
    obtain ⟨ex₂, hex₂, _, hexeq₂⟩ :=
      allocation_count hn fmt (List.mem_range.mp hj₂)
        (pool.take (num_teams * picks_per_team)).length
    have hlen₁ : e₁.2.length = (pool.take (num_teams * picks_per_team)).length / num_teams
        + ex₁ := by
      rw [← hej₁, bucket_length, hexeq₁]
    have hlen₂ : e₂.2.length = (pool.take (num_teams * picks_per_team)).length / num_teams
        + ex₂ := by
      rw [← hej₂, bucket_length, hexeq₂]
    omega
  · intro pid hpid e he hmem2
    refine hpid (hperm.mem_iff.mp ?_)
    exact List.mem_flatten.mpr ⟨e.2, List.mem_map_of_mem Prod.snd he, hmem2⟩
  · intro hnod pid hmem
    rw [List.countP_map]
    exact bucket_unique hnod hn fmt hmem

theorem allocation_invariants_witness :
    ((allocatePicks (([1, 2, 3, 4] : List Nat).take (2 * 2)) 2 DraftFormat.Snake).map Prod.fst
      = teamLabels 2)
    ∧ (allocatePicks (([1, 2, 3, 4] : List Nat).take (2 * 2)) 2 DraftFormat.Snake).countP
        (fun e => decide ((1 : Nat) ∈ e.2)) = 1 :=
  ⟨(allocation_invariants [1, 2, 3, 4] 2 2 DraftFormat.Snake (by omega) (by omega)).1,
    (allocation_invariants [1, 2, 3, 4] 2 2 DraftFormat.Snake (by omega)
      (by omega)).2.2.2.2.2 (by decide) 1 (by decide)⟩

end ExpansionDraft
